import Mathlib

/-!
Verification development for the `microlp` linear-programming library.

The repository's public surface (`src/lib.rs`) is embedded directly:
`Variable`, `LinearExpr`, `RelOp`, `Error`, `Problem`, `Solution` and their
methods.  The internal solver modules (`solver.rs`, `lu.rs`, `sparse.rs`,
`ordering.rs`) are not part of the available sources; everything that
depends on them is modelled from the specification, over exact rational
arithmetic: the spec's standard form (minimize `c^T x` s.t. `A x = b`,
`x >= 0`, `>=` rows negated to `<=`, one slack per row, artificials in
phase 1), a fuel-bounded primal simplex driver for `solve`, and a dual
simplex driver for the incremental operations.  Floating-point tolerances
of the spec become exact rational comparisons.
-/

set_option linter.unusedVariables false

namespace Microlp

/-! ### List helpers

Dense rational vectors are lists; out-of-range reads default to `0`,
mirroring entries that a sparse representation simply does not store. -/

/-- Read entry `n` of a dense rational vector, `0` when out of range. -/
def getq (l : List ℚ) (n : Nat) : ℚ := l.getD n 0

/-- Pointwise difference of two dense vectors, padding the shorter one with zeros. -/
def sub2 : List ℚ → List ℚ → List ℚ
  | a, [] => a
  | [], b => b.map Neg.neg
  | x :: xs, y :: ys => (x - y) :: sub2 xs ys

/-- Pointwise sum of two dense vectors, padding the shorter one with zeros. -/
def add2 : List ℚ → List ℚ → List ℚ
  | a, [] => a
  | [], b => b
  | x :: xs, y :: ys => (x + y) :: add2 xs ys

/-- Scale a dense vector. -/
def smulV (c : ℚ) (l : List ℚ) : List ℚ := l.map (fun x => c * x)

/-- Negate a dense vector. -/
def negV (l : List ℚ) : List ℚ := l.map Neg.neg

/-- Dot product of two dense vectors (excess entries of either side are dropped,
which agrees with padding by zeros). -/
def dotV : List ℚ → List ℚ → ℚ
  | [], _ => 0
  | _, [] => 0
  | x :: xs, y :: ys => x * y + dotV xs ys

/-- Pad a vector with zeros up to length `n`. -/
def padTo (n : Nat) (l : List ℚ) : List ℚ := l ++ List.replicate (n - l.length) 0

/-- Position of the first occurrence of `j`, or the length of the list when absent. -/
def idxOf : List Nat → Nat → Nat
  | [], _ => 0
  | x :: xs, j => if x = j then 0 else idxOf xs j + 1

/-- Position of the first occurrence of `j`, or `none` when absent. -/
def idxOfOpt : List Nat → Nat → Option Nat
  | [], _ => none
  | x :: xs, j => if x = j then some 0 else (idxOfOpt xs j).map (· + 1)

/-- Index of the first negative entry of a vector. -/
def findNeg : List ℚ → Option Nat
  | [] => none
  | x :: xs => if x < 0 then some 0 else (findNeg xs).map (· + 1)

/-- First index in `l` minimizing `f`; earlier indices win ties. -/
def argminBy (f : Nat → ℚ) : List Nat → Option Nat
  | [] => none
  | k :: ks =>
    match argminBy f ks with
    | none => some k
    | some b => if f k ≤ f b then some k else some b

theorem getq_nil (n : Nat) : getq [] n = 0 := by cases n <;> rfl

theorem getq_of_le_length (l : List ℚ) (n : Nat) (h : l.length ≤ n) : getq l n = 0 := by
  induction l generalizing n with
  | nil => exact getq_nil n
  | cons x xs ih =>
    cases n with
    | zero => simp at h
    | succ m => exact ih m (Nat.le_of_succ_le_succ h)

theorem getq_append (l₁ l₂ : List ℚ) (k : Nat) :
    getq (l₁ ++ l₂) k = if k < l₁.length then getq l₁ k else getq l₂ (k - l₁.length) := by
  induction l₁ generalizing k with
  | nil => simp [getq]
  | cons x xs ih =>
    cases k with
    | zero => simp [getq]
    | succ m =>
      simp only [List.cons_append, getq, List.getD, List.get?_cons_succ, List.length_cons,
        Nat.succ_lt_succ_iff, Nat.succ_sub_succ]
      exact ih m

theorem getq_sub2 (a b : List ℚ) (k : Nat) : getq (sub2 a b) k = getq a k - getq b k := by
  induction a generalizing b k with
  | nil =>
    cases b with
    | nil => simp [sub2, getq_nil]
    | cons y ys =>
      cases k with
      | zero => simp [sub2, getq, getq_nil]
      | succ m =>
        have : getq (List.map Neg.neg (y :: ys)) (m + 1) = getq (List.map Neg.neg ys) m := rfl
        simp only [sub2, getq_nil]
        have h2 : ∀ (l : List ℚ) (k : Nat), getq (List.map Neg.neg l) k = -(getq l k) := by
          intro l
          induction l with
          | nil => intro k; simp [getq_nil]
          | cons z zs ihz =>
            intro k
            cases k with
            | zero => rfl
            | succ mm => exact ihz mm
        rw [h2]
        ring
  | cons x xs ih =>
    cases b with
    | nil => simp [sub2, getq_nil]
    | cons y ys =>
      cases k with
      | zero => rfl
      | succ m => exact ih ys m

theorem getq_smulV (c : ℚ) (l : List ℚ) (k : Nat) : getq (smulV c l) k = c * getq l k := by
  induction l generalizing k with
  | nil => simp [smulV, getq_nil]
  | cons x xs ih =>
    cases k with
    | zero => rfl
    | succ m => exact ih m

theorem getq_negV (l : List ℚ) (k : Nat) : getq (negV l) k = -(getq l k) := by
  induction l generalizing k with
  | nil => simp [negV, getq_nil]
  | cons x xs ih =>
    cases k with
    | zero => rfl
    | succ m => exact ih m

theorem idxOf_append_of_mem (l₁ l₂ : List Nat) (j : Nat) (h : j ∈ l₁) :
    idxOf (l₁ ++ l₂) j = idxOf l₁ j := by
  induction l₁ with
  | nil => simp at h
  | cons x xs ih =>
    by_cases hx : x = j
    · simp [idxOf, hx]
    · have hj : j ∈ xs := by
        cases h with
        | head => exact absurd rfl hx
        | tail _ h' => exact h'
      simp [idxOf, hx, ih hj]

theorem idxOf_lt_length (l : List Nat) (j : Nat) (h : j ∈ l) : idxOf l j < l.length := by
  induction l with
  | nil => simp at h
  | cons x xs ih =>
    by_cases hx : x = j
    · simp [idxOf, hx]
    · have hj : j ∈ xs := by
        cases h with
        | head => exact absurd rfl hx
        | tail _ h' => exact h'
      simp only [idxOf, hx, if_false, List.length_cons]
      exact Nat.succ_lt_succ (ih hj)

theorem idxOf_of_not_mem (l : List Nat) (j : Nat) (h : j ∉ l) : idxOf l j = l.length := by
  induction l with
  | nil => rfl
  | cons x xs ih =>
    have hx : x ≠ j := fun hc => h (hc ▸ List.mem_cons_self x xs)
    have hj : j ∉ xs := fun hc => h (List.mem_cons_of_mem x hc)
    simp [idxOf, hx, ih hj]

theorem findNeg_eq_none (l : List ℚ) (h : ∀ x ∈ l, 0 ≤ x) : findNeg l = none := by
  induction l with
  | nil => rfl
  | cons x xs ih =>
    have hx : ¬ x < 0 := not_lt.mpr (h x (List.mem_cons_self x xs))
    simp [findNeg, hx, ih (fun y hy => h y (List.mem_cons_of_mem x hy))]

theorem findNeg_some (l : List ℚ) (r : Nat) (h : findNeg l = some r) : getq l r < 0 := by
  induction l generalizing r with
  | nil => simp [findNeg] at h
  | cons x xs ih =>
    by_cases hx : x < 0
    · simp only [findNeg, if_pos hx] at h
      cases h
      exact hx
    · simp only [findNeg, if_neg hx] at h
      cases hfind : findNeg xs with
      | none => rw [hfind] at h; simp at h
      | some r' =>
        rw [hfind] at h
        simp only [Option.map_some'] at h
        cases h
        exact ih r' hfind

theorem argminBy_ne_none (f : Nat → ℚ) (k : Nat) (ks : List Nat) :
    argminBy f (k :: ks) ≠ none := by
  simp only [argminBy]
  cases argminBy f ks with
  | none => simp
  | some b => by_cases hle : f k ≤ f b <;> simp [hle]

theorem argminBy_mem (f : Nat → ℚ) (l : List Nat) (j : Nat) (h : argminBy f l = some j) :
    j ∈ l := by
  induction l generalizing j with
  | nil => simp [argminBy] at h
  | cons k ks ih =>
    cases hrec : argminBy f ks with
    | none =>
      simp only [argminBy, hrec] at h
      cases h
      exact List.mem_cons_self _ _
    | some b =>
      simp only [argminBy, hrec] at h
      by_cases hle : f k ≤ f b
      · rw [if_pos hle] at h
        cases h
        exact List.mem_cons_self _ _
      · rw [if_neg hle] at h
        have hbj : b = j := Option.some.inj h
        subst hbj
        exact List.mem_cons_of_mem _ (ih b hrec)

theorem argminBy_min (f : Nat → ℚ) (l : List Nat) (j : Nat) (h : argminBy f l = some j) :
    ∀ k ∈ l, f j ≤ f k := by
  induction l generalizing j with
  | nil => simp [argminBy] at h
  | cons k ks ih =>
    intro k' hk'
    cases hrec : argminBy f ks with
    | none =>
      simp only [argminBy, hrec] at h
      cases h
      cases hk' with
      | head => exact le_refl _
      | tail _ hmem =>
        exfalso
        cases ks with
        | nil => exact absurd hmem (List.not_mem_nil k')
        | cons a as => exact argminBy_ne_none f a as hrec
    | some b =>
      simp only [argminBy, hrec] at h
      by_cases hle : f k ≤ f b
      · rw [if_pos hle] at h
        cases h
        cases hk' with
        | head => exact le_refl _
        | tail _ hmem => exact le_trans hle (ih b hrec k' hmem)
      · rw [if_neg hle] at h
        cases h
        cases hk' with
        | head => exact le_of_lt (not_le.mp hle)
        | tail _ hmem => exact ih j hrec k' hmem

theorem argminBy_isSome (f : Nat → ℚ) (l : List Nat) (h : l ≠ []) :
    (argminBy f l).isSome = true := by
  cases l with
  | nil => exact absurd rfl h
  | cons k ks =>
    simp only [argminBy]
    cases argminBy f ks with
    | none => rfl
    | some b => by_cases hle : f k ≤ f b <;> simp [hle]

/-! ### Public types of `src/lib.rs` -/

/-- Embeds `pub struct Variable(usize)` of `lib.rs`. -/
structure Variable where
  idx : Nat
  deriving DecidableEq, Repr

/-- Embeds `pub enum RelOp { Eq, Le, Ge }` of `lib.rs`. -/
inductive RelOp where
  | Eq
  | Le
  | Ge
  deriving DecidableEq, Repr

/-- Embeds `pub enum Error { Infeasible, Unbounded }` of `lib.rs` — these
are the only two error variants the library can return. -/
inductive Error where
  | Infeasible
  | Unbounded
  deriving DecidableEq, Repr

/-! ### The simplex engine

Modelled from the spec: the `solver` module of the repository is not among
the available sources, so the engine state of spec section 4.4 ("`A`, `b`,
`c`, basis, non-basic statuses, primal `x_B`, dual `y`, reduced costs `d`,
current objective") is embedded as a dense rational simplex tableau.  The
sparse/LU machinery of spec sections 4.1-4.3 affects only efficiency and
rounding, neither of which exists over exact rationals, so systems
`B x = b` are solved by keeping the tableau in basis-reduced form. -/

/-- Modelled from the spec (section 4.4, missing `solver.rs`): the simplex
engine state.  `rows`/`rhs` hold the current basis-reduced constraint system,
`basis` the basic variable of each row, `objRow` the reduced costs and
`objVal` the current objective value; non-basic variables sit at their lower
bound `0`. -/
structure Tableau where
  ncols : Nat
  rows : List (List ℚ)
  rhs : List ℚ
  basis : List Nat
  objRow : List ℚ
  objVal : ℚ
  deriving DecidableEq, Repr

/-- Row `r` of the tableau, `[]` when out of range. -/
def getRow (t : Tableau) (r : Nat) : List ℚ := t.rows.getD r []

/-- Modelled from the spec (`Solver::get_value`): the primal value of column
`j` — the `rhs` of its basic row, or `0` (its lower bound) when non-basic. -/
def Tableau.get_value (t : Tableau) (j : Nat) : ℚ := getq t.rhs (idxOf t.basis j)

/-- The current primal assignment of all columns, in column order. -/
def Tableau.assign (t : Tableau) : List ℚ := (List.range t.ncols).map t.get_value

/-- Modelled from the spec (section 4.4, pivot step 4): exchange column `j`
into the basis on row `r`, eliminating it from every other row and from the
reduced-cost row.  The objective value moves by `d_j * (rhs_r / a_rj)`. -/
def Tableau.pivot (t : Tableau) (r j : Nat) : Tableau :=
  let rowr := getRow t r
  let p := getq rowr j
  let norm := smulV p⁻¹ rowr
  let rr := getq t.rhs r / p
  { ncols := t.ncols
    rows := t.rows.mapIdx (fun i row => if i = r then norm else sub2 row (smulV (getq row j) norm))
    rhs := t.rhs.mapIdx (fun i x => if i = r then rr else x - getq (getRow t i) j * rr)
    basis := t.basis.set r j
    objRow := sub2 t.objRow (smulV (getq t.objRow j) norm)
    objVal := t.objVal + getq t.objRow j * rr }

/-- Modelled from the spec (section 4.4, dual pivot pricing): the entering
column for a dual pivot on row `r` — among columns with a negative entry in
the row, the one minimizing `d_j / (-a_rj)`, earliest index on ties. -/
def Tableau.dualEntering (t : Tableau) (r : Nat) : Option Nat :=
  let rowr := getRow t r
  argminBy (fun k => getq t.objRow k / (-(getq rowr k)))
    ((List.range rowr.length).filter (fun k => decide (getq rowr k < 0)))

/-- Modelled from the spec (sections 4.4-4.5): the dual simplex driver used
for reoptimization after a perturbation.  Pricing picks the first primal
infeasible row; an empty dual ratio test means no feasible completion
(`Infeasible`); the fuel bound models the pivot-count bound of section 4.4,
whose exhaustion surfaces as `Infeasible` per section 7. -/
def Tableau.dualSimplex : Nat → Tableau → Except Error Tableau
  | 0, t =>
    match findNeg t.rhs with
    | none => .ok t
    | some _ => .error Error.Infeasible
  | fuel + 1, t =>
    match findNeg t.rhs with
    | none => .ok t
    | some r =>
      match t.dualEntering r with
      | none => .error Error.Infeasible
      | some j => Tableau.dualSimplex fuel (t.pivot r j)

/-- Modelled from the spec (section 4.4, primal pricing): Dantzig's rule —
the most negative reduced cost, earliest index on ties. -/
def pickEntering (d : List ℚ) : Option Nat :=
  argminBy (fun k => getq d k)
    ((List.range d.length).filter (fun k => decide (getq d k < 0)))

/-- Modelled from the spec (section 4.4, ratio test): the leaving row for
entering column `j` — among rows with a positive entry in column `j`, the one
minimizing `rhs_i / a_ij`, earliest index on ties. -/
def Tableau.ratioTest (t : Tableau) (j : Nat) : Option Nat :=
  argminBy (fun i => getq t.rhs i / getq (getRow t i) j)
    ((List.range t.rows.length).filter (fun i => decide (0 < getq (getRow t i) j)))

/-- Modelled from the spec (section 4.4): the primal simplex driver.  No
entering column means optimality; an empty ratio test for an improving
column means `Unbounded`; fuel exhaustion models a numerical stall, which
surfaces as `Infeasible` per section 7. -/
def Tableau.primalSimplex : Nat → Tableau → Except Error Tableau
  | 0, t =>
    match pickEntering t.objRow with
    | none => .ok t
    | some _ => .error Error.Infeasible
  | fuel + 1, t =>
    match pickEntering t.objRow with
    | none => .ok t
    | some j =>
      match t.ratioTest j with
      | none => .error Error.Unbounded
      | some r => Tableau.primalSimplex fuel (t.pivot r j)

/-- The pivot-count bound of spec section 4.4: `50 * (m + n)`. -/
def Tableau.fuel (t : Tableau) : Nat := 50 * (t.rows.length + t.ncols)

/-- Modelled from the spec (section 4.5, `add_row`): append a `<=` row
`a . x <= b` to the engine.  The row is reduced against the basic rows, a
fresh slack column is appended with coefficient `1`, zero reduced cost, and
the slack becomes basic at its value `b - a . x`. -/
def Tableau.addRow (t : Tableau) (a : List ℚ) (b : ℚ) : Tableau :=
  let aRed := (t.basis.zip t.rows).foldl (fun acc pr => sub2 acc (smulV (getq a pr.1) pr.2)) a
  { ncols := t.ncols + 1
    rows := t.rows.map (fun row => padTo t.ncols row ++ [0]) ++ [padTo t.ncols aRed ++ [1]]
    rhs := t.rhs ++ [b - dotV a t.assign]
    basis := t.basis ++ [t.ncols]
    objRow := t.objRow ++ [0]
    objVal := t.objVal }

/-- Reoptimize with the dual simplex after appending a `<=` row, as the
incremental operations of spec section 4.5 do. -/
def Tableau.addRowReopt (t : Tableau) (a : List ℚ) (b : ℚ) : Except Error Tableau :=
  let t' := t.addRow a b
  Tableau.dualSimplex t'.fuel t'

/-- The tolerance of spec section 7: fractional parts within `1e-9` of `0`
or `1` are treated as integral. -/
def eps : ℚ := 1 / 1000000000

/-- Modelled from the spec (section 4.5, `add_gomory_cut`): the left-hand
coefficients of the Gomory fractional cut of basic row `r` in its natural
`>=` form — `frac(gamma_j)` on every non-basic column `j`, `0` on basic
columns; the cut reads `gomoryCutCoeffs . x >= frac(rhs_r)`. -/
def Tableau.gomoryCutCoeffs (t : Tableau) (r : Nat) : List ℚ :=
  (List.range t.ncols).map
    (fun j => if j ∈ t.basis then 0 else Int.fract (getq (getRow t r) j))

/-- The Gomory cut written as the `<=` row the engine actually appends. -/
def Tableau.gomoryRowLe (t : Tableau) (r : Nat) : List ℚ :=
  negV (t.gomoryCutCoeffs r)

/-- Modelled from the spec (section 4.5, `add_gomory_cut`): derive a Gomory
fractional cut from the basic row of column `i` and reoptimize dually.
When `i` is non-basic, or the fractional part of its value is within `eps`
of `0` or `1`, the operation fails before touching the tableau (the public
`Error` type has no variant for this failure, so it is modelled as `none`,
a panic). -/
def Tableau.add_gomory_cut (t : Tableau) (i : Nat) : Option (Except Error Tableau) :=
  match idxOfOpt t.basis i with
  | none => none
  | some r =>
    let f := Int.fract (getq t.rhs r)
    if f ≤ eps ∨ 1 - eps ≤ f then none
    else some (t.addRowReopt (t.gomoryRowLe r) (-(f)))

/-! ### Problem construction (`src/lib.rs`) and standard-form setup -/

/-- Embeds `pub struct LinearExpr { vars, coeffs }` of `lib.rs`. -/
structure LinearExpr where
  vars : List Nat
  coeffs : List ℚ
  deriving DecidableEq, Repr

/-- Embeds `LinearExpr::empty`. -/
def LinearExpr.empty : LinearExpr := ⟨[], []⟩

/-- Embeds `LinearExpr::add`: pushes the pair, no dropping or merging. -/
def LinearExpr.add (e : LinearExpr) (v : Variable) (c : ℚ) : LinearExpr :=
  ⟨e.vars ++ [v.idx], e.coeffs ++ [c]⟩

/-- Embeds the `From<I> for LinearExpr` impl of `lib.rs`: fold `add` over
the term pairs. -/
def exprOf (terms : List (Variable × ℚ)) : LinearExpr :=
  terms.foldl (fun e pr => e.add pr.1 pr.2) LinearExpr.empty

/-- Embeds `pub struct Problem { obj, constraints }` of `lib.rs`.  A stored
constraint keeps the expression as pushed; `lib.rs` converts it to a sparse
`CsVec` of the external `sprs` crate, which the solver consumes by
scatter-accumulation (`densified` below). -/
structure Problem where
  obj : List ℚ
  constraints : List (LinearExpr × RelOp × ℚ)
  deriving DecidableEq, Repr

/-- Embeds `Problem::new`. -/
def Problem.new : Problem := ⟨[], []⟩

/-- Embeds `Problem::add_var`: the handle is the current objective length. -/
def Problem.add_var (p : Problem) (c : ℚ) : Variable × Problem :=
  (⟨p.obj.length⟩, ⟨p.obj ++ [c], p.constraints⟩)

/-- Embeds `Problem::add_constraint`: push the row. -/
def Problem.add_constraint (p : Problem) (e : LinearExpr) (op : RelOp) (b : ℚ) : Problem :=
  ⟨p.obj, p.constraints ++ [(e, op, b)]⟩

/-- Sum of the coefficients stored for variable `j` in a pushed term list. -/
def scatterSum (pairs : List (Nat × ℚ)) (j : Nat) : ℚ :=
  (pairs.filter (fun pr => pr.1 == j)).foldl (fun acc pr => acc + pr.2) 0

/-- Dense coefficient vector of an expression over `n` columns, by
scatter-accumulation as the solver reads a sparse row. -/
def densified (n : Nat) (e : LinearExpr) : List ℚ :=
  (List.range n).map (scatterSum (e.vars.zip e.coeffs))

/-- Modelled from the spec (section 3, missing `solver.rs`): a constraint
row on the way to standard form — dense coefficients, right-hand side, and
whether it was an equality row. -/
structure StdRow where
  cs : List ℚ
  b : ℚ
  slack : Option Nat
  art : Bool
  deriving DecidableEq, Repr

/-- Modelled from the spec (section 3): `>=` rows are negated to `<=`. -/
def toLeRow (n : Nat) (c : LinearExpr × RelOp × ℚ) : StdRow :=
  match c.2.1 with
  | RelOp.Le => ⟨densified n c.1, c.2.2, none, false⟩
  | RelOp.Ge => ⟨negV (densified n c.1), -(c.2.2), none, false⟩
  | RelOp.Eq => ⟨densified n c.1, c.2.2, none, true⟩

/-- Modelled from the spec (section 3): augment every inequality row with a
fresh slack variable of coefficient `+1`; equality rows get none.  `k` is
the next free slack column, `N` the total column count after slacks. -/
def addSlacks (N : Nat) : List StdRow → Nat → List StdRow
  | [], _ => []
  | row :: rest, k =>
    if row.art then { row with cs := padTo N row.cs } :: addSlacks N rest k
    else { row with cs := (padTo N row.cs).set k 1, slack := some k } :: addSlacks N rest (k + 1)

/-- Modelled from the spec (section 4.4, phase 1): rows whose right-hand
side is negative are negated so that `b >= 0`; such rows — and equality
rows — need an artificial variable for the initial basis. -/
def signFix (row : StdRow) : StdRow :=
  let needArt := row.art || decide (row.b < 0)
  if row.b < 0 then ⟨negV row.cs, -(row.b), row.slack, needArt⟩
  else { row with art := needArt }

/-- Modelled from the spec (section 4.4, phase 1): append artificial columns
(one per row that needs one, starting at column `aIdx`) and record each
row's initial basic variable — its artificial if it has one, its slack
otherwise.  Returns the finished rows with their basic column and artificial
flag. -/
def addArts (W : Nat) : List StdRow → Nat → List ((List ℚ × ℚ) × Nat × Bool)
  | [], _ => []
  | row :: rest, aIdx =>
    if row.art then
      (((padTo W row.cs).set aIdx 1, row.b), aIdx, true) :: addArts W rest (aIdx + 1)
    else
      ((padTo W row.cs, row.b), row.slack.getD 0, false) :: addArts W rest aIdx

/-- Modelled from the spec (section 4.4, phase 1): the phase-1 reduced cost
row for objective "sum of artificials" under the initial basis — `1` on
artificial columns minus the column sums over rows owning an artificial. -/
def phase1ObjRow (N W : Nat) (built : List ((List ℚ × ℚ) × Nat × Bool)) : List ℚ :=
  sub2 ((List.range W).map (fun j => if N ≤ j then (1 : ℚ) else 0))
    ((built.filter (fun e => e.2.2)).foldl (fun acc e => add2 acc e.1.1) [])

/-- Modelled from the spec (section 4.4, phase 1): the initial phase-1
objective value, the sum of the artificial values. -/
def phase1ObjVal (built : List ((List ℚ × ℚ) × Nat × Bool)) : ℚ :=
  (built.filter (fun e => e.2.2)).foldl (fun acc e => acc + e.1.2) 0

/-- Modelled from the spec (section 4.4, phase 1): first column below `N`
with a nonzero entry in the row, used to pivot a leftover artificial out. -/
def findNonzeroBelow (N : Nat) (row : List ℚ) : Option Nat :=
  ((List.range N).filter (fun j => decide (getq row j ≠ 0))).head?

/-- Modelled from the spec (section 4.4, phase 1): "pivot any remaining
artificial out by replacing it with any non-basic whose column has a nonzero
pivot after transformation". -/
def driveOutArts (N : Nat) (t : Tableau) : Tableau :=
  (List.range t.rows.length).foldl
    (fun t' r =>
      if N ≤ t'.basis.getD r 0 then
        match findNonzeroBelow N (getRow t' r) with
        | some j => t'.pivot r j
        | none => t'
      else t') t

/-- Modelled from the spec (section 4.4, phase 1): "if none exists, the row
is redundant and removed" — drop rows still basic in an artificial. -/
def dropArtRows (N : Nat) (t : Tableau) : Tableau :=
  let keep := (List.range t.rows.length).filter (fun r => decide (t.basis.getD r 0 < N))
  { ncols := t.ncols
    rows := keep.map (getRow t)
    rhs := keep.map (fun r => getq t.rhs r)
    basis := keep.map (fun r => t.basis.getD r 0)
    objRow := t.objRow
    objVal := t.objVal }

/-- Modelled from the spec (section 4.4, phase 2): discard the artificial
columns and install the real objective — reduced costs and objective value
recomputed against the current basis. -/
def phase2Setup (c : List ℚ) (N : Nat) (t : Tableau) : Tableau :=
  let cP := padTo N c
  let rows := t.rows.map (List.take N)
  { ncols := N
    rows := rows
    rhs := t.rhs
    basis := t.basis
    objRow := (t.basis.zip rows).foldl (fun acc pr => sub2 acc (smulV (getq cP pr.1) pr.2)) cP
    objVal := (t.basis.zip t.rhs).foldl (fun acc pr => acc + getq cP pr.1 * pr.2) 0 }

/-- Modelled from the spec (sections 3, 4.4, missing `solver.rs`): the full
solve — standard form, two-phase primal simplex.  Phase 1 minimizes the sum
of artificials from the slack/artificial basis; a positive optimum is
`Infeasible`; leftover artificials are pivoted out or their rows dropped;
phase 2 minimizes the real objective. -/
def Problem.stdSolve (p : Problem) : Except Error Tableau :=
  let n := p.obj.length
  let ls := p.constraints.map (toLeRow n)
  let mLe := (ls.filter (fun r => !r.art)).length
  let N := n + mLe
  let bs := (addSlacks N ls n).map signFix
  let nArt := (bs.filter (fun r => r.art)).length
  let W := N + nArt
  let built := addArts W bs N
  let t1 : Tableau :=
    { ncols := W
      rows := built.map (fun e => e.1.1)
      rhs := built.map (fun e => e.1.2)
      basis := built.map (fun e => e.2.1)
      objRow := phase1ObjRow N W built
      objVal := phase1ObjVal built }
  match Tableau.primalSimplex t1.fuel t1 with
  | .error e => .error e
  | .ok t2 =>
    if 0 < t2.objVal then .error Error.Infeasible
    else
      let t3 := dropArtRows N (driveOutArts N t2)
      let t4 := phase2Setup p.obj N t3
      Tableau.primalSimplex t4.fuel t4

/-! ### The incremental facade

Spec section 3 describes pinned variables as "a set of (variable, value)
assignments layered over the base problem", each pinning contributing the
pair of rows `x_i <= v`, `x_i >= v` (section 4.5), and every incremental
operation ending at a new optimal basis.  `SolState` carries exactly that
layered state; reoptimization is modelled as a solve of the assembled
problem, which by section 4.5 ends at the same place. -/

/-- Modelled from the spec (section 3): the pin layer over the base
problem. -/
structure SolState where
  prob : Problem
  pins : List (Nat × ℚ)
  deriving DecidableEq, Repr

/-- Modelled from the spec (section 4.5, `pin`): each pinning contributes
the rows `x_i <= v` and `x_i >= v`. -/
def pinRows (pins : List (Nat × ℚ)) : List (LinearExpr × RelOp × ℚ) :=
  pins.foldr
    (fun pr acc =>
      (⟨[pr.1], [1]⟩, RelOp.Le, pr.2) :: (⟨[pr.1], [1]⟩, RelOp.Ge, pr.2) :: acc) []

/-- The base problem with the pinning rows layered on top. -/
def SolState.assembled (s : SolState) : Problem :=
  ⟨s.prob.obj, s.prob.constraints ++ pinRows s.pins⟩

/-- Modelled from the spec (sections 4.4-4.5): the engine state the layered
problem reoptimizes to. -/
def SolState.reopt (s : SolState) : Except Error Tableau := s.assembled.stdSolve

/-- Objective query answered from the reoptimized engine. -/
def SolState.objectiveE (s : SolState) : Except Error ℚ := s.reopt.map Tableau.objVal

/-- Value query answered from the reoptimized engine. -/
def SolState.valueE (s : SolState) (j : Nat) : Except Error ℚ :=
  s.reopt.map (fun t => t.get_value j)

/-- Modelled from the spec (section 4.5, `pin`): record the pinning and
reoptimize; the operation fails exactly when reoptimization does. -/
def SolState.set_var (s : SolState) (i : Nat) (v : ℚ) : Except Error SolState :=
  let s' : SolState := ⟨s.prob, (i, v) :: s.pins⟩
  s'.reopt.map (fun _ => s')

/-- Remove the most recent pinning of variable `i`. -/
def removePin (i : Nat) : List (Nat × ℚ) → List (Nat × ℚ)
  | [] => []
  | pr :: rest => if pr.1 = i then rest else pr :: removePin i rest

/-- Modelled from the spec (section 4.5, `unpin`): remove the pinning rows
of `i`, report whether anything was removed, and reoptimize. -/
def SolState.unset_var (s : SolState) (i : Nat) : Except Error (SolState × Bool) :=
  let removed := s.pins.any (fun pr => pr.1 == i)
  let s' : SolState := ⟨s.prob, removePin i s.pins⟩
  s'.reopt.map (fun _ => (s', removed))

/-! ### The public `Solution` handle of `src/lib.rs` -/

/-- The engine state cached for a facade state (a reachable `error` is never
consulted: every operation producing a `Solution` has already checked that
reoptimization succeeds). -/
def tabOf (st : SolState) : Tableau :=
  match st.reopt with
  | .ok t => t
  | .error _ => ⟨0, [], [], [], [], 0⟩

/-- Embeds `pub struct Solution { num_vars, solver }` of `lib.rs`: the
problem's variable count plus the solver state — here the pin layer `st`
and the engine tableau `tab` that answers queries. -/
structure Solution where
  num_vars : Nat
  st : SolState
  tab : Tableau
  deriving DecidableEq, Repr

/-- Embeds `Problem::solve`: run the solver, wrap it with `num_vars`. -/
def Problem.solve (p : Problem) : Except Error Solution :=
  p.stdSolve.map (fun t => ⟨p.obj.length, ⟨p, []⟩, t⟩)

/-- Embeds `Solution::objective`: the solver's current objective value. -/
def Solution.objective (s : Solution) : ℚ := s.tab.objVal

/-- Embeds `Solution::get` / `Index<Variable>`. -/
def Solution.get (s : Solution) (v : Variable) : ℚ := s.tab.get_value v.idx

/-- Embeds `Solution::set_var`.  The `assert!(var.idx() < self.num_vars)`
panic is modelled as `none` and is checked before the solver is touched. -/
def Solution.set_var (s : Solution) (v : Variable) (val : ℚ) :
    Option (Except Error Solution) :=
  if v.idx < s.num_vars then
    some ((s.st.set_var v.idx val).map (fun st' => ⟨s.num_vars, st', tabOf st'⟩))
  else none

/-- Embeds `Solution::unset_var`, returning the solution and the flag "the
var was really unset".  The assertion panic is modelled as `none`. -/
def Solution.unset_var (s : Solution) (v : Variable) :
    Option (Except Error (Solution × Bool)) :=
  if v.idx < s.num_vars then
    some ((s.st.unset_var v.idx).map
      (fun pr => (⟨s.num_vars, pr.1, tabOf pr.1⟩, pr.2)))
  else none

/-- Embeds `Solution::add_constraint` of `lib.rs`: `Le` rows pass through,
`Ge` rows are negated (coefficients and bound), and `RelOp::Eq` hits
`unimplemented!()` — a panic, modelled as `none`; no value of the public
`Error` type is produced for it.  The sparse row is read over the solver's
columns by scatter-accumulation and handed to the engine's `add_row` path
(spec section 4.5). -/
def Solution.add_constraint (s : Solution) (e : LinearExpr) (op : RelOp) (bound : ℚ) :
    Option (Except Error Solution) :=
  match op with
  | RelOp.Eq => none
  | RelOp.Le =>
    some ((s.tab.addRowReopt (densified s.tab.ncols e) bound).map
      (fun t => ⟨s.num_vars, s.st, t⟩))
  | RelOp.Ge =>
    some ((s.tab.addRowReopt (negV (densified s.tab.ncols e)) (-bound)).map
      (fun t => ⟨s.num_vars, s.st, t⟩))

/-- Embeds `Solution::add_gomory_cut`.  The assertion panic is modelled as
`none`; the engine-level failure for a non-fractional target is also a
panic (`Error` has no variant for it). -/
def Solution.add_gomory_cut (s : Solution) (v : Variable) :
    Option (Except Error Solution) :=
  if v.idx < s.num_vars then
    (s.tab.add_gomory_cut v.idx).map (fun r => r.map (fun t => ⟨s.num_vars, s.st, t⟩))
  else none

/-! ### Dual simplex facts

A dual pivot from a dually feasible tableau (all reduced costs
non-negative) keeps dual feasibility and cannot decrease the objective —
the monotonicity behind the Gomory-cut property of spec section 8. -/

theorem pivot_objVal (t : Tableau) (r j : Nat) :
    (t.pivot r j).objVal
      = t.objVal + getq t.objRow j * (getq t.rhs r / getq (getRow t r) j) := rfl

theorem pivot_objRow_getq (t : Tableau) (r j k : Nat) :
    getq (t.pivot r j).objRow k
      = getq t.objRow k
        - getq t.objRow j * ((getq (getRow t r) j)⁻¹ * getq (getRow t r) k) := by
  simp [Tableau.pivot, getq_sub2, getq_smulV]

theorem getq_neg_lt_length (l : List ℚ) (k : Nat) (h : getq l k < 0) : k < l.length := by
  by_contra hk
  rw [getq_of_le_length l k (Nat.le_of_not_lt hk)] at h
  exact absurd h (lt_irrefl 0)

theorem dualEntering_neg (t : Tableau) (r j : Nat) (h : t.dualEntering r = some j) :
    getq (getRow t r) j < 0 := by
  have hmem := argminBy_mem _ _ _ h
  rw [List.mem_filter] at hmem
  exact of_decide_eq_true hmem.2

theorem dualEntering_min (t : Tableau) (r j : Nat) (h : t.dualEntering r = some j)
    (k : Nat) (hk : getq (getRow t r) k < 0) :
    getq t.objRow j / (-(getq (getRow t r) j))
      ≤ getq t.objRow k / (-(getq (getRow t r) k)) := by
  refine argminBy_min _ _ _ h k ?_
  rw [List.mem_filter]
  exact ⟨List.mem_range.mpr (getq_neg_lt_length _ _ hk), decide_eq_true hk⟩

theorem pivot_dual_feasible (t : Tableau) (r j : Nat)
    (hI : ∀ k, 0 ≤ getq t.objRow k) (hj : t.dualEntering r = some j) :
    ∀ k, 0 ≤ getq (t.pivot r j).objRow k := by
  intro k
  rw [pivot_objRow_getq]
  set dk := getq t.objRow k with hdk
  set dj := getq t.objRow j with hdj
  set p := getq (getRow t r) j with hp
  set c := getq (getRow t r) k with hc
  have hpneg : p < 0 := dualEntering_neg t r j hj
  rcases le_or_lt 0 c with hcpos | hcneg
  · have h1 : p⁻¹ * c ≤ 0 :=
      mul_nonpos_of_nonpos_of_nonneg (le_of_lt (inv_neg''.mpr hpneg)) hcpos
    have h2 : dj * (p⁻¹ * c) ≤ 0 := mul_nonpos_of_nonneg_of_nonpos (hI j) h1
    linarith [hI k]
  · have hmin := dualEntering_min t r j hj k hcneg
    have hpp : (0 : ℚ) < -p := neg_pos.mpr hpneg
    have hcc : (0 : ℚ) < -c := neg_pos.mpr hcneg
    rw [div_le_div_iff₀ hpp hcc] at hmin
    have hrw : p⁻¹ * c = (-c) / (-p) := by
      field_simp
    rw [hrw]
    have h1 : dj * (-c / -p) = (dj * -c) / -p := (mul_div_assoc _ _ _).symm
    have h2 : (dj * -c) / -p ≤ (dk * -p) / -p := div_le_div_of_nonneg_right hmin (le_of_lt hpp)
    have h3 : (dk * -p) / -p = dk := mul_div_cancel_right₀ dk (ne_of_gt hpp)
    linarith

theorem pivot_objVal_mono (t : Tableau) (r j : Nat)
    (hI : ∀ k, 0 ≤ getq t.objRow k)
    (hr : findNeg t.rhs = some r) (hj : t.dualEntering r = some j) :
    t.objVal ≤ (t.pivot r j).objVal := by
  rw [pivot_objVal]
  have hb : getq t.rhs r < 0 := findNeg_some _ _ hr
  have hp : getq (getRow t r) j < 0 := dualEntering_neg t r j hj
  have hpos : 0 < getq t.rhs r / getq (getRow t r) j := div_pos_of_neg_of_neg hb hp
  nlinarith [hI j]

theorem dualSimplex_mono (fuel : Nat) :
    ∀ t t' : Tableau, (∀ k, 0 ≤ getq t.objRow k) →
      Tableau.dualSimplex fuel t = .ok t' → t.objVal ≤ t'.objVal := by
  induction fuel with
  | zero =>
    intro t t' hI h
    cases hneg : findNeg t.rhs with
    | none =>
      simp only [Tableau.dualSimplex, hneg] at h
      cases h
      exact le_refl _
    | some r =>
      simp only [Tableau.dualSimplex, hneg] at h
      exact Except.noConfusion h
  | succ fuel ih =>
    intro t t' hI h
    cases hneg : findNeg t.rhs with
    | none =>
      simp only [Tableau.dualSimplex, hneg] at h
      cases h
      exact le_refl _
    | some r =>
      simp only [Tableau.dualSimplex, hneg] at h
      cases hent : t.dualEntering r with
      | none =>
        simp only [hent] at h
        exact Except.noConfusion h
      | some j =>
        simp only [hent] at h
        exact le_trans (pivot_objVal_mono t r j hI hneg hent)
          (ih _ t' (pivot_dual_feasible t r j hI hent) h)

/-- A tableau whose right-hand sides are all non-negative is already primal
feasible: the dual driver returns it unchanged at any fuel. -/
theorem dualSimplex_of_feasible (fuel : Nat) (t : Tableau)
    (h : ∀ x ∈ t.rhs, 0 ≤ x) : Tableau.dualSimplex fuel t = .ok t := by
  have hnone := findNeg_eq_none t.rhs h
  cases fuel <;> simp [Tableau.dualSimplex, hnone]

/-! ### Row-addition facts -/

theorem addRow_objVal (t : Tableau) (a : List ℚ) (b : ℚ) :
    (t.addRow a b).objVal = t.objVal := rfl

theorem addRow_get_value (t : Tableau) (a : List ℚ) (b : ℚ)
    (hlen : t.basis.length = t.rhs.length) (j : Nat) (hj : j < t.ncols) :
    (t.addRow a b).get_value j = t.get_value j := by
  unfold Tableau.addRow Tableau.get_value
  simp only []
  by_cases hmem : j ∈ t.basis
  · rw [idxOf_append_of_mem _ _ _ hmem, getq_append]
    rw [if_pos (hlen ▸ idxOf_lt_length _ _ hmem)]
  · have hne : j ∉ [t.ncols] := by
      intro hc
      rw [List.mem_singleton] at hc
      exact absurd hc (Nat.ne_of_lt hj)
    have hnot : j ∉ t.basis ++ [t.ncols] := by
      intro hc
      rcases List.mem_append.mp hc with h1 | h1
      · exact hmem h1
      · exact hne h1
    rw [idxOf_of_not_mem _ _ hnot, idxOf_of_not_mem _ _ hmem]
    rw [getq_of_le_length, getq_of_le_length]
    · rw [hlen]
    · simp [hlen]

theorem addRow_objRow_nonneg (t : Tableau) (a : List ℚ) (b : ℚ)
    (h : ∀ k, 0 ≤ getq t.objRow k) : ∀ k, 0 ≤ getq (t.addRow a b).objRow k := by
  intro k
  show 0 ≤ getq (t.objRow ++ [0]) k
  rw [getq_append]
  by_cases hk : k < t.objRow.length
  · rw [if_pos hk]; exact h k
  · rw [if_neg hk]
    cases hsub : k - t.objRow.length with
    | zero => exact le_refl 0
    | succ m => exact le_of_eq (getq_of_le_length _ _ (by simp)).symm

theorem addRow_rhs (t : Tableau) (a : List ℚ) (b : ℚ) :
    (t.addRow a b).rhs = t.rhs ++ [b - dotV a t.assign] := rfl

/-! ### Dot products over ranges, and the Gomory cut at the current point -/

theorem dotV_append_single (a b : List ℚ) (x y : ℚ) (h : a.length = b.length) :
    dotV (a ++ [x]) (b ++ [y]) = dotV a b + x * y := by
  induction a generalizing b with
  | nil =>
    cases b with
    | nil => simp [dotV]
    | cons z zs => simp at h
  | cons z zs ih =>
    cases b with
    | nil => simp at h
    | cons w ws =>
      simp only [List.length_cons, Nat.succ_inj] at h
      simp only [List.cons_append, dotV, List.append_eq]
      rw [ih ws h]
      ring

theorem dotV_map_range (n : Nat) (f g : Nat → ℚ) :
    dotV ((List.range n).map f) ((List.range n).map g)
      = ∑ j ∈ Finset.range n, f j * g j := by
  induction n with
  | zero => simp [dotV]
  | succ m ih =>
    rw [List.range_succ, List.map_append, List.map_append]
    simp only [List.map_singleton]
    rw [dotV_append_single _ _ _ _ (by simp), ih, Finset.sum_range_succ]

theorem negV_map (f : Nat → ℚ) (l : List Nat) :
    negV (l.map f) = l.map (fun j => -(f j)) := by
  induction l with
  | nil => rfl
  | cons x xs ih =>
    show -(f x) :: negV (xs.map f) = -(f x) :: xs.map fun j => -(f j)
    rw [ih]

/-- At the pre-cut point every non-basic variable is `0` and every basic
column has cut coefficient `0`, so the cut's left-hand side vanishes. -/
theorem gomoryCut_lhs_zero (t : Tableau) (r : Nat)
    (hlen : t.basis.length = t.rhs.length) :
    dotV (t.gomoryCutCoeffs r) t.assign = 0 := by
  unfold Tableau.gomoryCutCoeffs Tableau.assign
  rw [dotV_map_range]
  apply Finset.sum_eq_zero
  intro j hj
  by_cases hmem : j ∈ t.basis
  · rw [if_pos hmem, zero_mul]
  · rw [if_neg hmem]
    unfold Tableau.get_value
    rw [idxOf_of_not_mem _ _ hmem, getq_of_le_length _ _ (le_of_eq hlen.symm), mul_zero]

/-! ### Concrete scenarios of spec section 8 -/

/-- Scenario 1 of the spec: objective `-3 v1 - 4 v2`, rows `v1 >= 10`,
`v2 >= 5`, `v1 + v2 <= 20`, `-v1 + 4 v2 <= 20` (the last row written with
its terms in the order the repository's test pushes them). -/
def scen1prob : Problem :=
  let pr0 := Problem.new
  let va := pr0.add_var (-3)
  let vb := va.2.add_var (-4)
  let pr1 := vb.2.add_constraint (exprOf [(va.1, 1)]) RelOp.Ge 10
  let pr2 := pr1.add_constraint (exprOf [(vb.1, 1)]) RelOp.Ge 5
  let pr3 := pr2.add_constraint (exprOf [(va.1, 1), (vb.1, 1)]) RelOp.Le 20
  pr3.add_constraint (exprOf [(vb.1, 4), (va.1, -1)]) RelOp.Le 20

/-- The first variable of scenario 1. -/
def scen1v1 : Variable := (Problem.new.add_var (-3)).1

/-- The second variable of scenario 1. -/
def scen1v2 : Variable := ((Problem.new.add_var (-3)).2.add_var (-4)).1

/-- Scenario 5 of the spec: minimize `-v1` with no upper bound on `v1`. -/
def scen5prob : Problem := (Problem.new.add_var (-1)).2

/-- Scenario 6 of the spec: rows `v1 <= 1` and `v1 >= 2`. -/
def scen6prob : Problem :=
  let va := Problem.new.add_var 0
  (va.2.add_constraint (exprOf [(va.1, 1)]) RelOp.Le 1).add_constraint
    (exprOf [(va.1, 1)]) RelOp.Ge 2

/-- Scenario 2/3 of the spec: objective `2 v1 + v2`, rows `v1 + v2 <= 4`,
`v1 + v2 >= 2`. -/
def scen2prob : Problem :=
  let va := Problem.new.add_var 2
  let vb := va.2.add_var 1
  (vb.2.add_constraint (exprOf [(va.1, 1), (vb.1, 1)]) RelOp.Le 4).add_constraint
    (exprOf [(va.1, 1), (vb.1, 1)]) RelOp.Ge 2

/-- The solution handle of scenario 2's base problem. -/
def scen2sol : Solution :=
  match scen2prob.solve with
  | .ok s => s
  | .error _ => ⟨0, ⟨Problem.new, []⟩, ⟨0, [], [], [], [], 0⟩⟩

/-- Scenario 4 of the spec: objective `-v2`, rows `3 v1 + 2 v2 <= 6`,
`-3 v1 + 2 v2 <= 0`. -/
def scen4prob : Problem :=
  let va := Problem.new.add_var 0
  let vb := va.2.add_var (-1)
  (vb.2.add_constraint (exprOf [(va.1, 3), (vb.1, 2)]) RelOp.Le 6).add_constraint
    (exprOf [(va.1, -3), (vb.1, 2)]) RelOp.Le 0

/-- The engine state at scenario 4's LP optimum `(1, 3/2)`. -/
def scen4tab : Tableau :=
  match scen4prob.stdSolve with
  | .ok t => t
  | .error _ => ⟨0, [], [], [], [], 0⟩

/-- The engine state after the Gomory cut on `v2` in scenario 4. -/
def scen4cutTab : Tableau :=
  match scen4tab.add_gomory_cut 1 with
  | some (.ok t) => t
  | _ => ⟨0, [], [], [], [], 0⟩

/-- A trivially constructed empty solution handle (no variables). -/
def solEmpty : Solution := ⟨0, ⟨Problem.new, []⟩, ⟨0, [], [], [], [], 0⟩⟩

/-- A one-variable problem with zero objective and no constraints. -/
def scen0prob : Problem := (Problem.new.add_var 0).2

/-- The solution handle of `scen0prob`. -/
def scen0sol : Solution :=
  match scen0prob.solve with
  | .ok s => s
  | .error _ => solEmpty

/-! ### Problem-construction histories (for the `add_var` handle claim) -/

/-- A construction step on a `Problem`: the only mutations `lib.rs` offers
before `solve`. -/
inductive BuildOp where
  | bvar (c : ℚ)
  | bcon (e : LinearExpr) (op : RelOp) (b : ℚ)
  deriving DecidableEq

/-- Apply one construction step. -/
def applyOp (p : Problem) : BuildOp → Problem
  | .bvar c => (p.add_var c).2
  | .bcon e op b => p.add_constraint e op b

/-- Apply a construction history left to right. -/
def applyOps (p : Problem) (ops : List BuildOp) : Problem := ops.foldl applyOp p

theorem applyOps_obj_len (p : Problem) (ops : List BuildOp) :
    p.obj.length ≤ (applyOps p ops).obj.length := by
  induction ops generalizing p with
  | nil => exact le_refl _
  | cons o os ih =>
    refine le_trans ?_ (ih (applyOp p o))
    cases o with
    | bvar c => simp [applyOp, Problem.add_var]
    | bcon e op b => simp [applyOp, Problem.add_constraint]

end Microlp

deriving instance DecidableEq for Except

namespace Microlp

/-! ### Further helper lemmas for the claims -/

theorem getq_nonneg_of_mem_nonneg (l : List ℚ) (h : ∀ x ∈ l, 0 ≤ x) :
    ∀ k, 0 ≤ getq l k := by
  intro k
  induction l generalizing k with
  | nil => exact le_of_eq (getq_nil k).symm
  | cons x xs ih =>
    cases k with
    | zero => exact h x (List.mem_cons_self _ _)
    | succ m => exact ih (fun y hy => h y (List.mem_cons_of_mem _ hy)) m

theorem dotV_negV (a x : List ℚ) : dotV (negV a) x = -(dotV a x) := by
  induction a generalizing x with
  | nil => simp [negV, dotV]
  | cons c cs ih =>
    cases x with
    | nil => simp [negV, dotV]
    | cons y ys =>
      show -c * y + dotV (negV cs) ys = -(c * y + dotV cs ys)
      rw [ih]
      ring

/-- Modelled from the spec (section 4.5, `add_row`): whether the current
primal assignment satisfies a row given as coefficients, operator and
bound. -/
def rowSat (op : RelOp) (a : List ℚ) (b : ℚ) (x : List ℚ) : Prop :=
  match op with
  | RelOp.Le => dotV a x ≤ b
  | RelOp.Ge => b ≤ dotV a x
  | RelOp.Eq => dotV a x = b

instance (op : RelOp) (a : List ℚ) (b : ℚ) (x : List ℚ) : Decidable (rowSat op a b x) :=
  match op with
  | RelOp.Le => inferInstanceAs (Decidable (dotV a x ≤ b))
  | RelOp.Ge => inferInstanceAs (Decidable (b ≤ dotV a x))
  | RelOp.Eq => inferInstanceAs (Decidable (dotV a x = b))

/-! ### The claims -/

/-- C1: for the problem with variables `v1, v2`, objective `-3 v1 - 4 v2`
and rows `v1 >= 10`, `v2 >= 5`, `v1 + v2 <= 20`, `-v1 + 4 v2 <= 20`,
`Problem::solve` succeeds and the returned solution has `value(v1) = 12`,
`value(v2) = 8` and `objective() = -68`. -/
theorem claim1_lp_basic :
    scen1prob.solve.map (fun s => (s.get scen1v1, s.get scen1v2, s.objective))
      = Except.ok (12, 8, -68) := by
  with_unfolding_all decide

/-- C2: `Problem::solve` returns either a `Solution` or an error drawn
exactly from `{Infeasible, Unbounded}` (the type of `solve` and the two
constructors of `Error` embed `lib.rs` directly); minimizing `-v1` with no
upper bound on `v1` reports `Unbounded`, and the rows `v1 <= 1`, `v1 >= 2`
report `Infeasible`. -/
theorem claim2_solve_errors :
    scen5prob.solve = Except.error Error.Unbounded
    ∧ scen6prob.solve = Except.error Error.Infeasible
    ∧ ∀ e : Error, e = Error.Infeasible ∨ e = Error.Unbounded := by
  refine ⟨by with_unfolding_all decide, by with_unfolding_all decide, ?_⟩
  intro e
  cases e
  · exact Or.inl rfl
  · exact Or.inr rfl

/-- Witness for C2 at a concrete error value. -/
theorem claim2_solve_errors_witness :
    Error.Unbounded = Error.Infeasible ∨ Error.Unbounded = Error.Unbounded :=
  claim2_solve_errors.2.2 Error.Unbounded

/-- C5 (counterexample): the incremental `add_constraint` with `RelOp::Eq`
does not return any value of the `Error` type — `Error` has only
`Infeasible` and `Unbounded`, so no "Unsupported" error value exists; the
call hits `unimplemented!()`, a panic, modelled as `none`. -/
theorem claim5_counterexample :
    solEmpty.add_constraint LinearExpr.empty RelOp.Eq 0 = none := rfl

/-- C5 (amended): for every solution handle, the incremental
`add_constraint` with relational operator `=` panics (`unimplemented!()` in
`lib.rs`), so the row is neither accepted nor split into inequalities; it
is not reported through an `Error` value, since `Error` has no
`Unsupported` variant. -/
theorem claim5_eq_unimplemented (s : Solution) (e : LinearExpr) (b : ℚ) :
    s.add_constraint e RelOp.Eq b = none := rfl

/-- Witness for C5 at a concrete solved handle and row. -/
theorem claim5_eq_unimplemented_witness :
    scen2sol.add_constraint (exprOf [(⟨0⟩, 1)]) RelOp.Eq 2 = none :=
  claim5_eq_unimplemented scen2sol (exprOf [(⟨0⟩, 1)]) 2

/-- C6 (counterexample): on a tableau whose target variable is basic with
the integral value `2`, `add_gomory_cut` does not fail with any
"NotFractional" error value — `Error` has only `Infeasible` and
`Unbounded` — the failure is a panic, modelled as `none`. -/
theorem claim6_counterexample :
    (Tableau.mk 1 [[1]] [2] [0] [0] 0).add_gomory_cut 0 = none := by
  with_unfolding_all decide

/-- C6 (amended): `add_gomory_cut(var)` fails — without producing any value
of the `Error` type, whose only variants are `Infeasible` and `Unbounded` —
whenever `var` is non-basic or the fractional part of its value is within
`1e-9` of `0` or `1`. -/
theorem claim6_not_fractional :
    (∀ (t : Tableau) (i : Nat), idxOfOpt t.basis i = none →
      t.add_gomory_cut i = none)
    ∧ (∀ (t : Tableau) (i r : Nat), idxOfOpt t.basis i = some r →
      (Int.fract (getq t.rhs r) ≤ eps ∨ 1 - eps ≤ Int.fract (getq t.rhs r)) →
      t.add_gomory_cut i = none) := by
  constructor
  · intro t i h
    simp [Tableau.add_gomory_cut, h]
  · intro t i r h hf
    simp only [Tableau.add_gomory_cut, h]
    rw [if_pos hf]

/-- Witness for C6: a non-basic target on a concrete tableau. -/
theorem claim6_not_fractional_witness :
    (Tableau.mk 1 [[1]] [2] [5] [0] 0).add_gomory_cut 0 = none :=
  claim6_not_fractional.1 (Tableau.mk 1 [[1]] [2] [5] [0] 0) 0 (by decide)

/-- C10: `set_var`, `unset_var` and `add_gomory_cut` fail their
`assert!(var.idx() < num_vars)` — modelled as the panic value `none`,
produced before the solver state is consulted — for any variable index at
least `num_vars`; and every `Variable` handed out by `add_var` keeps
`idx < num_vars` through any further construction history, so the panic
branch is unreachable for handles the API hands out. -/
theorem claim10_assert_guards :
    (∀ (s : Solution) (v : Variable) (val : ℚ), s.num_vars ≤ v.idx →
      s.set_var v val = none ∧ s.unset_var v = none ∧ s.add_gomory_cut v = none)
    ∧ (∀ (p : Problem) (c : ℚ) (ops : List BuildOp) (s : Solution),
      (applyOps (p.add_var c).2 ops).solve = .ok s →
      (p.add_var c).1.idx < s.num_vars) := by
  constructor
  · intro s v val h
    have hn : ¬ v.idx < s.num_vars := not_lt.mpr h
    exact ⟨by simp [Solution.set_var, hn], by simp [Solution.unset_var, hn],
      by simp [Solution.add_gomory_cut, hn]⟩
  · intro p c ops s h
    unfold Problem.solve at h
    cases hs : (applyOps (p.add_var c).2 ops).stdSolve with
    | error e =>
      rw [hs] at h
      exact Except.noConfusion h
    | ok t =>
      rw [hs] at h
      have hsv : s.num_vars = (applyOps (p.add_var c).2 ops).obj.length := by
        cases h
        rfl
      rw [hsv]
      have h1 : (p.add_var c).1.idx + 1 = (p.add_var c).2.obj.length := by
        simp [Problem.add_var]
      have h2 := applyOps_obj_len (p.add_var c).2 ops
      rw [← h1] at h2
      exact Nat.lt_of_lt_of_le (Nat.lt_succ_self _) h2

/-- Witness for C10: an out-of-range index panics on a concrete handle,
and the handle from `add_var` on a concretely solved problem satisfies the
assertion. -/
theorem claim10_assert_guards_witness :
    (solEmpty.set_var ⟨0⟩ 1 = none ∧ solEmpty.unset_var ⟨0⟩ = none
      ∧ solEmpty.add_gomory_cut ⟨0⟩ = none)
    ∧ (Problem.new.add_var 0).1.idx < scen0sol.num_vars := by
  constructor
  · exact claim10_assert_guards.1 solEmpty ⟨0⟩ 1 (by decide)
  · exact claim10_assert_guards.2 Problem.new 0 [] scen0sol (by with_unfolding_all decide)

/-- C3: for every solution state and variable, `set_var(v, val)` followed
by `unset_var(v)` returns the pre-`set` solution — the pin layer is
restored exactly, so the objective and every variable value agree (exact
rational equality, hence within any tolerance, in particular `1e-9`) — and
the flag returned by `unset_var` is `true`. -/
theorem claim3_set_unset_roundtrip (s s₁ : SolState) (i : Nat) (v : ℚ)
    (out : SolState × Bool)
    (h₁ : s.set_var i v = .ok s₁) (h₂ : s₁.unset_var i = .ok out) :
    out.2 = true ∧ out.1.objectiveE = s.objectiveE
      ∧ ∀ j, out.1.valueE j = s.valueE j := by
  obtain ⟨pr, pins⟩ := s
  simp only [SolState.set_var] at h₁
  cases hr : (SolState.mk pr ((i, v) :: pins)).reopt with
  | error e =>
    rw [hr] at h₁
    exact Except.noConfusion h₁
  | ok t =>
    rw [hr] at h₁
    have hs₁ : SolState.mk pr ((i, v) :: pins) = s₁ := Except.ok.inj h₁
    subst hs₁
    simp [SolState.unset_var, removePin] at h₂
    cases hr2 : (SolState.mk pr pins).reopt with
    | error e =>
      rw [hr2] at h₂
      exact Except.noConfusion h₂
    | ok t2 =>
      rw [hr2] at h₂
      have hout : (SolState.mk pr pins, true) = out := Except.ok.inj h₂
      subst hout
      exact ⟨rfl, rfl, fun j => rfl⟩

/-- Witness for C3 on scenario 2: set `v1 := 3` on the solved base problem,
then unset it. -/
theorem claim3_set_unset_roundtrip_witness :
    (SolState.mk scen2prob [], true).2 = true
    ∧ (SolState.mk scen2prob [], true).1.objectiveE
        = (SolState.mk scen2prob []).objectiveE
    ∧ (SolState.mk scen2prob [], true).1.valueE 0
        = (SolState.mk scen2prob []).valueE 0 := by
  have h := claim3_set_unset_roundtrip (SolState.mk scen2prob [])
    (SolState.mk scen2prob [(0, 3)]) 0 3 (SolState.mk scen2prob [], true)
    (by with_unfolding_all decide) (by with_unfolding_all decide)
  exact ⟨h.1, h.2.1, h.2.2 0⟩

/-- C4: from a dually feasible engine state (every reduced cost
non-negative — the optimality certificate of a minimization optimum), a
successful `add_gomory_cut` yields an objective at least the old one, and
the derived cut `gomoryCutCoeffs . x >= frac(rhs_r)` is violated by the
pre-cut optimal assignment. -/
theorem claim4_gomory_tightens (t : Tableau) (i : Nat) (t' : Tableau)
    (hdual : ∀ x ∈ t.objRow, 0 ≤ x)
    (hlen : t.basis.length = t.rhs.length)
    (hok : t.add_gomory_cut i = some (.ok t')) :
    t.objVal ≤ t'.objVal
    ∧ ∀ r, idxOfOpt t.basis i = some r →
        dotV (t.gomoryCutCoeffs r) t.assign < Int.fract (getq t.rhs r) := by
  have hdual' : ∀ k, 0 ≤ getq t.objRow k := getq_nonneg_of_mem_nonneg _ hdual
  cases hb : idxOfOpt t.basis i with
  | none => simp [Tableau.add_gomory_cut, hb] at hok
  | some r =>
    simp only [Tableau.add_gomory_cut, hb] at hok
    by_cases hf : Int.fract (getq t.rhs r) ≤ eps
        ∨ 1 - eps ≤ Int.fract (getq t.rhs r)
    · rw [if_pos hf] at hok
      exact Option.noConfusion hok
    · rw [if_neg hf] at hok
      have hok' := Option.some.inj hok
      constructor
      · simp only [Tableau.addRowReopt] at hok'
        have hmono := dualSimplex_mono _ _ t'
          (addRow_objRow_nonneg t (t.gomoryRowLe r) (-(Int.fract (getq t.rhs r))) hdual')
          hok'
        exact le_trans
          (le_of_eq (addRow_objVal t (t.gomoryRowLe r) (-(Int.fract (getq t.rhs r)))).symm)
          hmono
      · intro r' hr'
        have hrr : r = r' := Option.some.inj hr'
        subst hrr
        rw [gomoryCut_lhs_zero t r hlen]
        push_neg at hf
        have heps : (0 : ℚ) < eps := by norm_num [eps]
        exact lt_trans heps hf.1

/-- Witness for C4 on scenario 4: the cut on `v2` at the optimum
`(1, 3/2)`. -/
theorem claim4_gomory_tightens_witness :
    scen4tab.objVal ≤ scen4cutTab.objVal
    ∧ dotV (scen4tab.gomoryCutCoeffs 1) scen4tab.assign
        < Int.fract (getq scen4tab.rhs 1) := by
  have h := claim4_gomory_tightens scen4tab 1 scen4cutTab
    (by with_unfolding_all decide) (by with_unfolding_all decide)
    (by with_unfolding_all decide)
  exact ⟨h.1, h.2 1 (by with_unfolding_all decide)⟩

/-- C8 (counterexample): on scenario 2's solved handle, the row
`v1 + v2 = 2` is satisfied by the current assignment `(0, 2)`, yet the
incremental `add_constraint` panics (`unimplemented!()` for `=` rows,
modelled as `none`) instead of returning an unchanged solution. -/
theorem claim8_counterexample :
    rowSat RelOp.Eq (densified scen2sol.tab.ncols (exprOf [(⟨0⟩, 1), (⟨1⟩, 1)])) 2
        scen2sol.tab.assign
    ∧ scen2sol.add_constraint (exprOf [(⟨0⟩, 1), (⟨1⟩, 1)]) RelOp.Eq 2 = none :=
  ⟨by with_unfolding_all decide, rfl⟩

/-- C8 (amended): for a solved handle (primal feasible engine state with a
consistent basis), the incremental `add_constraint` with a `<=` or `>=`
row that the current assignment already satisfies succeeds and returns a
solution with the same objective and the same value for every column. -/
theorem claim8_satisfied_row (s : Solution) (e : LinearExpr) (op : RelOp) (b : ℚ)
    (hop : op ≠ RelOp.Eq)
    (hfeas : ∀ x ∈ s.tab.rhs, 0 ≤ x)
    (hlen : s.tab.basis.length = s.tab.rhs.length)
    (hsat : rowSat op (densified s.tab.ncols e) b s.tab.assign) :
    ∃ s', s.add_constraint e op b = some (.ok s')
      ∧ s'.objective = s.objective
      ∧ ∀ j < s.tab.ncols, s'.tab.get_value j = s.tab.get_value j := by
  cases op with
  | Eq => exact absurd rfl hop
  | Le =>
    refine ⟨⟨s.num_vars, s.st, s.tab.addRow (densified s.tab.ncols e) b⟩, ?_, rfl, ?_⟩
    · have hall : ∀ x ∈ (s.tab.addRow (densified s.tab.ncols e) b).rhs, 0 ≤ x := by
        rw [addRow_rhs]
        intro x hx
        rcases List.mem_append.mp hx with hx | hx
        · exact hfeas x hx
        · rw [List.mem_singleton] at hx
          subst hx
          have hd : dotV (densified s.tab.ncols e) s.tab.assign ≤ b := hsat
          linarith
      have hds := dualSimplex_of_feasible
        (s.tab.addRow (densified s.tab.ncols e) b).fuel _ hall
      simp only [Solution.add_constraint, Tableau.addRowReopt, hds, Except.map]
    · intro j hj
      exact addRow_get_value s.tab _ b hlen j hj
  | Ge =>
    refine ⟨⟨s.num_vars, s.st,
      s.tab.addRow (negV (densified s.tab.ncols e)) (-b)⟩, ?_, rfl, ?_⟩
    · have hall : ∀ x ∈ (s.tab.addRow (negV (densified s.tab.ncols e)) (-b)).rhs, 0 ≤ x := by
        rw [addRow_rhs]
        intro x hx
        rcases List.mem_append.mp hx with hx | hx
        · exact hfeas x hx
        · rw [List.mem_singleton] at hx
          subst hx
          have hd : b ≤ dotV (densified s.tab.ncols e) s.tab.assign := hsat
          rw [dotV_negV]
          linarith
      have hds := dualSimplex_of_feasible
        (s.tab.addRow (negV (densified s.tab.ncols e)) (-b)).fuel _ hall
      simp only [Solution.add_constraint, Tableau.addRowReopt, hds, Except.map]
    · intro j hj
      exact addRow_get_value s.tab _ (-b) hlen j hj

/-- Witness for C8 on scenario 2: the row `v1 + v2 <= 5` is satisfied at
the optimum `(0, 2)`. -/
theorem claim8_satisfied_row_witness :
    ∃ s', scen2sol.add_constraint (exprOf [(⟨0⟩, 1), (⟨1⟩, 1)]) RelOp.Le 5
        = some (.ok s')
      ∧ s'.objective = scen2sol.objective
      ∧ ∀ j < scen2sol.tab.ncols, s'.tab.get_value j = scen2sol.tab.get_value j :=
  claim8_satisfied_row scen2sol (exprOf [(⟨0⟩, 1), (⟨1⟩, 1)]) RelOp.Le 5
    (by decide) (by with_unfolding_all decide) (by with_unfolding_all decide)
    (by with_unfolding_all decide)

end Microlp
